import Mathlib

/-!
Shallow embedding of the recommendation pipeline of the repository
(server entry point, src/server/src/index.ts), together with proofs of the
behavioural claims about it.

Conventions of the embedding:
* JavaScript numbers used as integers become Nat or Int.
* Nullable / optional JSON fields become Option.
* A settled promise (Promise.allSettled entry) becomes an Option: none for a
  rejected promise, some v for a fulfilled one with value v.
* JavaScript string lowercasing (String.prototype.toLowerCase) is modelled by
  mapping Char.toLower over the characters, and String.prototype.slice(0, n)
  by taking the first n characters.
* Math.floor(Math.random() * (i + 1)) in the shuffle is modelled by an
  arbitrary function rand : Nat -> Nat giving the chosen index j at step i;
  all theorems hold for every such function, hence for every random outcome.
-/

/-- JavaScript toLowerCase, modelled characterwise. -/
def strLower (s : String) : String := ⟨s.data.map Char.toLower⟩

/-- JavaScript slice(0, n) on a string: the first n characters. -/
def strTake (s : String) (n : Nat) : String := ⟨s.data.take n⟩

/- ── Rate limiter (src/server/src/index.ts lines 16-37) ─────────────────── -/

def RATE_WINDOW_MS : Nat := 60000

def RATE_LIMIT : Nat := 20

/-- One entry of the in-memory rate map: request count and window end time. -/
structure RateEntry where
  count : Nat
  resetAt : Nat
deriving DecidableEq, Repr

/-- The record returned by checkRateLimit. The remaining field is an Int
because the source computes RATE_LIMIT - entry.count as a plain number. -/
structure RateResult where
  allowed : Bool
  remaining : Int
  resetAt : Nat
deriving DecidableEq, Repr

/-- Embedding of checkRateLimit for a single client key: takes the current
time and the current map entry for that key, returns the result record and
the new map entry. -/
def checkRateLimit (now : Nat) (entry : Option RateEntry) : RateResult × Option RateEntry :=
  match entry with
  | none =>
    let resetAt := now + RATE_WINDOW_MS
    (⟨true, (RATE_LIMIT : Int) - 1, resetAt⟩, some ⟨1, resetAt⟩)
  | some e =>
    if e.resetAt < now then
      let resetAt := now + RATE_WINDOW_MS
      (⟨true, (RATE_LIMIT : Int) - 1, resetAt⟩, some ⟨1, resetAt⟩)
    else if RATE_LIMIT ≤ e.count then
      (⟨false, 0, e.resetAt⟩, some e)
    else
      (⟨true, (RATE_LIMIT : Int) - (e.count + 1), e.resetAt⟩, some ⟨e.count + 1, e.resetAt⟩)

/-- A sequence of rate-limit checks sharing one client key, at the given
times, threading the map entry through. -/
def runRateChecks (ts : List Nat) (st : Option RateEntry) :
    List RateResult × Option RateEntry :=
  match ts with
  | [] => ([], st)
  | t :: rest =>
    let r := checkRateLimit t st
    let rs := runRateChecks rest r.2
    (r.1 :: rs.1, rs.2)

/-- Number of checks in a result list that were allowed. -/
def countAllowed (rs : List RateResult) : Nat := (rs.filter (·.allowed)).length

/- ── Genre id maps (lines 45-57) ────────────────────────────────────────── -/

inductive MediaType where
  | movie : MediaType
  | tv : MediaType
deriving DecidableEq, Repr

def MOVIE_GENRE_IDS : List (String × Nat) :=
  [("Action", 28), ("Adventure", 12), ("Animation", 16), ("Comedy", 35), ("Crime", 80),
   ("Documentary", 99), ("Drama", 18), ("Fantasy", 14), ("Horror", 27), ("Mystery", 9648),
   ("Romance", 10749), ("Sci-Fi", 878), ("Thriller", 53), ("Family", 10751),
   ("History", 36), ("Music", 10402), ("War", 10752), ("Western", 37)]

def TV_GENRE_IDS : List (String × Nat) :=
  [("Action", 10759), ("Animation", 16), ("Comedy", 35), ("Crime", 80),
   ("Documentary", 99), ("Drama", 18), ("Fantasy", 10765), ("Family", 10751),
   ("Mystery", 9648), ("Sci-Fi", 10765), ("War", 10768), ("Western", 37),
   ("Romance", 10749), ("Horror", 27), ("Thriller", 53)]

def genreIdMapOf : MediaType → List (String × Nat)
  | MediaType.movie => MOVIE_GENRE_IDS
  | MediaType.tv => TV_GENRE_IDS

/-- genres.flatMap(g => genreIdMap[g] != null ? [genreIdMap[g]] : []) -/
def selectedGenreIds (mt : MediaType) (genres : List String) : List Nat :=
  genres.filterMap (fun g => (genreIdMapOf mt).lookup g)

/- ── Discover query parameters (lines 170-186 and 208-212) ──────────────── -/

/-- The query parameters of one catalog call, in insertion order; a later
entry with the same key overrides an earlier one (URLSearchParams.set and
object spread), which never removes a key, so key presence is faithful. -/
def hasParam (q : List (String × String)) (k : String) : Bool :=
  q.any (fun p => p.1 == k)

/-- Embedding of baseParams: always the vote thresholds, optionally the
genre filter, then either providers plus region or region plus
monetization types. -/
def baseParams (selGenres : List Nat) (providerIds : List Nat) (country : String) :
    List (String × String) :=
  [("vote_count.gte", "40"), ("vote_average.gte", "5.5")]
    ++ (if 0 < selGenres.length then
          [("with_genres", String.intercalate "," (selGenres.map toString))]
        else [])
    ++ (if 0 < providerIds.length then
          [("with_watch_providers", String.intercalate "|" (providerIds.map toString)),
           ("watch_region", country)]
        else
          [("watch_region", country),
           ("with_watch_monetization_types", "flatrate|free|ads")])

/-- The parameter lists of the five discover calls issued per request
(lines 208-212), each spreading baseParams and then adding its own keys. -/
def discoverQueries (bp : List (String × String)) : List (List (String × String)) :=
  [ bp ++ [("sort_by", "popularity.desc"), ("page", "1")]
  , bp ++ [("sort_by", "popularity.desc"), ("page", "2")]
  , bp ++ [("sort_by", "popularity.desc"), ("page", "3")]
  , bp ++ [("sort_by", "vote_average.desc"), ("vote_count.gte", "150"), ("page", "1")]
  , bp ++ [("sort_by", "vote_average.desc"), ("vote_count.gte", "150"), ("page", "2")] ]

/-- The five discover parameter lists for a full request. -/
def discoverQueriesOf (mt : MediaType) (genres : List String) (providerIds : List Nat)
    (country : String) : List (List (String × String)) :=
  discoverQueries (baseParams (selectedGenreIds mt genres) providerIds country)

/- ── Catalog items and builder inputs (lines 163-230) ───────────────────── -/

/-- One catalog record as the pipeline reads it (type TmdbItem in the
source); every field is optional in the upstream JSON. -/
structure TmdbItem where
  id : Option Nat
  title : Option String
  name : Option String
  release_date : Option String
  first_air_date : Option String
  overview : Option String
  vote_average : Option Float
  poster_path : Option String

instance : Inhabited TmdbItem :=
  ⟨⟨none, none, none, none, none, none, none, none⟩⟩

/-- The object returned by the search-term extraction model call. -/
structure FilterObject where
  searchQueries : List String
  similarTitles : List String

/-- Everything the candidate pool builder consumes once the concurrent
operations have settled.  filterResult: none = the extraction model call
was rejected, some none = no description was given (Promise.resolve(null)),
some (some f) = the call returned f.  descSearches: the settled results of
the per-phrase and per-title search calls.  discoverFetches: the settled
results of the five discover calls.  rand: the index j drawn at step i of
the shuffle.  liked and disliked: seen titles supplied by the caller. -/
structure BuilderInputs where
  filterResult : Option (Option FilterObject)
  descSearches : List (Option (List TmdbItem))
  discoverFetches : List (Option (List TmdbItem))
  rand : Nat → Nat
  liked : List String
  disliked : List String

/-- descriptionPool (lines 217-230): the concatenated results of the
fulfilled description searches, empty unless the extraction call was
fulfilled with a non-null value. -/
def descriptionPoolOf (bi : BuilderInputs) : List TmdbItem :=
  match bi.filterResult with
  | some (some _) => bi.descSearches.foldl (fun acc r => acc ++ r.getD []) []
  | _ => []

/-- discoverIds (lines 233-239): ids of all items of fulfilled discover
results; the source collects them in a Set, of which only membership and
nonemptiness are consumed, so a list is a faithful model. -/
def discoverIdsOf (bi : BuilderInputs) : List Nat :=
  bi.discoverFetches.foldl (fun s r => s ++ (r.getD []).filterMap (·.id)) []

/-- priorityDesc (lines 243-245): description items validated against the
region-scoped discover ids, unless no discover id exists at all. -/
def priorityDescOf (bi : BuilderInputs) : List TmdbItem :=
  if 0 < (discoverIdsOf bi).length then
    (descriptionPoolOf bi).filter (fun item =>
      match item.id with
      | some i => (discoverIdsOf bi).contains i
      | none => false)
  else descriptionPoolOf bi

/-- One step of the merge loop (lines 251-255 and 259-266): skip an item
with no id or an already seen id, otherwise record the id and append. -/
def dedupStep (st : List Nat × List TmdbItem) (item : TmdbItem) :
    List Nat × List TmdbItem :=
  match item.id with
  | none => st
  | some i => if st.1.contains i then st else (i :: st.1, st.2 ++ [item])

/-- The merge state after the priority loop (line 251-255). -/
def mergePhase1 (bi : BuilderInputs) : List Nat × List TmdbItem :=
  (priorityDescOf bi).foldl dedupStep ([], [])

/-- descCount (line 256): pool length after the priority loop. -/
def descCountOf (bi : BuilderInputs) : Nat := (mergePhase1 bi).2.length

/-- The merged pool (lines 248-266): the priority loop followed by one loop
per fulfilled discover result. -/
def mergedPoolOf (bi : BuilderInputs) : List TmdbItem :=
  (bi.discoverFetches.foldl (fun st r => (r.getD []).foldl dedupStep st) (mergePhase1 bi)).2

/-- The concatenation of the fulfilled discover results, in query order. -/
def discoverItemsConcat (bi : BuilderInputs) : List TmdbItem :=
  bi.discoverFetches.foldl (fun acc r => acc ++ r.getD []) []

/-- The full load order of the merge: priority items first, then discover
results in query order. -/
def loadOrderOf (bi : BuilderInputs) : List TmdbItem :=
  priorityDescOf bi ++ discoverItemsConcat bi

/- ── Fisher-Yates shuffle of the general tail (lines 268-274) ───────────── -/

/-- Simultaneous swap of the entries at positions i and j, the meaning of
the destructuring assignment in the loop body; out-of-range positions leave
the list unchanged (they never arise in the source loop). -/
def listSwap (l : List α) (i j : Nat) : List α :=
  match l[i]?, l[j]? with
  | some a, some b => (l.set i b).set j a
  | _, _ => l

/-- The loop of line 270-273, counting i down from the first argument to 1,
swapping position i with position rand i. -/
def fyFrom (rand : Nat → Nat) : Nat → List α → List α
  | 0, l => l
  | i + 1, l => fyFrom rand i (listSwap l (i + 1) (rand (i + 1)))

/-- Fisher-Yates over a whole list: i starts at length - 1. -/
def fisherYates (rand : Nat → Nat) (l : List α) : List α :=
  fyFrom rand (l.length - 1) l

/-- The pool after lines 268-274: the splice keeps the first descCount
items in place and the shuffled tail is pushed back. -/
def builtPoolOf (bi : BuilderInputs) : List TmdbItem :=
  (mergedPoolOf bi).take (descCountOf bi)
    ++ fisherYates bi.rand ((mergedPoolOf bi).drop (descCountOf bi))

/- ── Seen-title filtering and truncation (lines 277-288) ────────────────── -/

/-- seenTitles (lines 277-280): lowercased liked and disliked titles; the
source stores them in a Set, of which only membership and nonemptiness are
consumed. -/
def seenTitlesOf (bi : BuilderInputs) : List String :=
  (bi.liked ++ bi.disliked).map strLower

/-- The display name used by the seen filter: r.title ?? r.name ?? the
empty string. -/
def itemDisplayName (r : TmdbItem) : String := r.title.getD (r.name.getD "")

/-- freshPool (lines 281-283). -/
def freshPoolOf (bi : BuilderInputs) : List TmdbItem :=
  if 0 < (seenTitlesOf bi).length then
    (builtPoolOf bi).filter (fun r => !((seenTitlesOf bi).contains (strLower (itemDisplayName r))))
  else builtPoolOf bi

/-- poolSlice (line 285): the pool handed to the curation stage. -/
def poolSliceOf (bi : BuilderInputs) : List TmdbItem := (freshPoolOf bi).take 30

/-- The count emitted in the found marker (line 288): pool.length, the
length of the merged and shuffled pool, read before seen filtering was
applied to produce freshPool. -/
def foundCountOf (bi : BuilderInputs) : Nat := (builtPoolOf bi).length

/- ── Curation stage (lines 320-352) ─────────────────────────────────────── -/

/-- One pick returned by the index-selection model call: an index into the
numbered list plus a vibe label.  The index is an Int because the model
output is only schema-constrained, not trusted. -/
structure Pick where
  index : Int
  vibe : String

/-- One validated recommendation as built at lines 340-346. -/
structure RecommendationBlock where
  title : String
  year : String
  overview : String
  img : String
  vibe : String
deriving DecidableEq, Repr

/-- Lines 340-346: the fields extracted from a pool item for a pick. -/
def mkRecommendationBlock (r : TmdbItem) (vibe : String) : RecommendationBlock :=
  { title := r.title.getD (r.name.getD "Unknown")
    year := strTake (r.release_date.getD (r.first_air_date.getD "")) 4
    overview := strTake (r.overview.getD "") 200
    img := match r.poster_path with
      | some p => if p == "" then "" else " [img:" ++ p ++ "]"
      | none => ""
    vibe := vibe }

/-- The validation predicate of line 337: p.index >= 0 && p.index < poolSlice.length. -/
def validPick (poolLen : Nat) (p : Pick) : Bool :=
  decide (0 ≤ p.index) && decide (p.index < (poolLen : Int))

/-- pickedItems (lines 336-347): discard out-of-range indices, map the
rest to recommendation blocks over the supplied pool. -/
def pickedItemsOf (poolSlice : List TmdbItem) (picks : List Pick) :
    List RecommendationBlock :=
  (picks.filter (validPick poolSlice.length)).map
    (fun p => mkRecommendationBlock (poolSlice.getD p.index.toNat default) p.vibe)

/- ── Streaming phases (lines 160, 287-288, 366-368) ─────────────────────── -/

/-- The events of one request handler run, in program order: bytes pushed
to the response stream, and consultations of settled catalog or model
results. -/
inductive StreamEv where
  | emitSearching : StreamEv
  | consult : StreamEv
  | emitFound : Nat → StreamEv
  | emitNarr : String → StreamEv
deriving DecidableEq, Repr

def isConsultEv : StreamEv → Bool
  | StreamEv.consult => true
  | _ => false

def isFoundEv : StreamEv → Bool
  | StreamEv.emitFound _ => true
  | _ => false

/-- The found marker text of line 288. -/
def foundMarker (n : Nat) : String := "[FOUND:" ++ toString n ++ "]\n"

/-- The event trace of one run of the handler body: the searching marker is
enqueued first (line 160); then the settled extraction result, description
search results and discover results are consulted (lines 218-266); then the
found marker is enqueued once (line 288); then each narration chunk is
enqueued in stream order (lines 366-368). -/
def recommendEventsOf (bi : BuilderInputs) (narr : List String) : List StreamEv :=
  StreamEv.emitSearching
    :: (List.replicate (1 + bi.descSearches.length + bi.discoverFetches.length)
          StreamEv.consult
        ++ StreamEv.emitFound (foundCountOf bi) :: narr.map StreamEv.emitNarr)

/-- The position of the found event in the trace. -/
def foundEvIdx (bi : BuilderInputs) : Nat :=
  2 + bi.descSearches.length + bi.discoverFetches.length

/-- The bytes one event contributes to the response body, if any. -/
def chunkOfEv : StreamEv → Option String
  | StreamEv.emitSearching => some "[SEARCHING]\n"
  | StreamEv.emitFound n => some (foundMarker n)
  | StreamEv.emitNarr s => some s
  | StreamEv.consult => none

/-- The chunks actually written to the response body, in order. -/
def emittedChunksOf (evs : List StreamEv) : List String :=
  evs.filterMap chunkOfEv

/-- Byte offset of the start of chunk k in the concatenated body. -/
def chunkOffset (chunks : List String) (k : Nat) : Nat :=
  ((chunks.take k).map String.length).sum

/- ── Failure normalization (claim C9) ───────────────────────────────────── -/

/-- A settled operation with its failure replaced by an empty success. -/
def normalizeSettled (r : Option (List TmdbItem)) : Option (List TmdbItem) :=
  some (r.getD [])

/-- The same builder inputs with every failed operation replaced by an
empty contribution: each rejected catalog call becomes a fulfilled call
with no results, and a rejected extraction call becomes one that returned
no search phrases and no titles (hence no description searches). -/
def normalizeFailures (bi : BuilderInputs) : BuilderInputs :=
  { bi with
    discoverFetches := bi.discoverFetches.map normalizeSettled
    descSearches :=
      match bi.filterResult with
      | some (some _) => bi.descSearches.map normalizeSettled
      | _ => []
    filterResult :=
      match bi.filterResult with
      | some (some f) => some (some f)
      | some none => some none
      | none => some (some ⟨[], []⟩) }

/- ── Helper lemmas: the swap and the shuffle ─────────────────────────────── -/

theorem listSwap_nil (i j : Nat) : listSwap ([] : List α) i j = [] := rfl

theorem cons_set_perm (xs : List α) (j : Nat) (h : j < xs.length) (x : α) :
    List.Perm (xs[j] :: xs.set j x) (x :: xs) := by
  have hxs : xs = xs.take j ++ xs[j] :: xs.drop (j + 1) := by
    conv_lhs => rw [← List.take_append_drop j xs]
    rw [List.getElem_cons_drop xs j h]
  rw [List.set_eq_take_cons_drop x h]
  have p1 : List.Perm (xs[j] :: (xs.take j ++ x :: xs.drop (j + 1)))
      (xs[j] :: (x :: (xs.take j ++ xs.drop (j + 1)))) :=
    List.Perm.cons _ List.perm_middle
  have p2 : List.Perm (xs[j] :: (x :: (xs.take j ++ xs.drop (j + 1))))
      (x :: (xs[j] :: (xs.take j ++ xs.drop (j + 1)))) :=
    List.Perm.swap x xs[j] _
  have p3 : List.Perm (x :: (xs[j] :: (xs.take j ++ xs.drop (j + 1))))
      (x :: (xs.take j ++ xs[j] :: xs.drop (j + 1))) :=
    List.Perm.cons _ List.perm_middle.symm
  have p4 : List.Perm (xs[j] :: (xs.take j ++ x :: xs.drop (j + 1)))
      (x :: (xs.take j ++ xs[j] :: xs.drop (j + 1))) :=
    (p1.trans p2).trans p3
  rw [← hxs] at p4
  exact p4

theorem listSwap_perm (l : List α) (i j : Nat) : List.Perm (listSwap l i j) l := by
  induction l generalizing i j with
  | nil => exact List.Perm.refl _
  | cons x xs ih =>
    match i, j with
    | 0, 0 =>
      simp only [listSwap, List.getElem?_cons_zero]
      exact List.Perm.refl _
    | 0, j + 1 =>
      simp only [listSwap, List.getElem?_cons_zero, List.getElem?_cons_succ]
      cases hj : xs[j]? with
      | none => exact List.Perm.refl _
      | some b =>
        have hjl : j < xs.length := by
          by_contra hc
          rw [List.getElem?_eq_none (Nat.le_of_not_lt hc)] at hj
          exact Option.noConfusion hj
        have hb : b = xs[j] := by
          rw [List.getElem?_eq_getElem hjl] at hj
          exact (Option.some.inj hj).symm
        subst hb
        simp only [List.set_cons_zero, List.set_cons_succ]
        exact cons_set_perm xs j hjl x
    | i + 1, 0 =>
      simp only [listSwap, List.getElem?_cons_zero, List.getElem?_cons_succ]
      cases hi : xs[i]? with
      | none => exact List.Perm.refl _
      | some a =>
        have hil : i < xs.length := by
          by_contra hc
          rw [List.getElem?_eq_none (Nat.le_of_not_lt hc)] at hi
          exact Option.noConfusion hi
        have ha : a = xs[i] := by
          rw [List.getElem?_eq_getElem hil] at hi
          exact (Option.some.inj hi).symm
        subst ha
        simp only [List.set_cons_succ, List.set_cons_zero]
        exact cons_set_perm xs i hil x
    | i + 1, j + 1 =>
      have hstep : listSwap (x :: xs) (i + 1) (j + 1) = x :: listSwap xs i j := by
        simp only [listSwap, List.getElem?_cons_succ]
        cases h1 : xs[i]? with
        | none => rfl
        | some a =>
          cases h2 : xs[j]? with
          | none => rfl
          | some b => simp only [List.set_cons_succ]
      rw [hstep]
      exact List.Perm.cons _ (ih i j)

theorem fyFrom_perm (rand : Nat → Nat) (n : Nat) (l : List α) :
    List.Perm (fyFrom rand n l) l := by
  induction n generalizing l with
  | zero => exact List.Perm.refl _
  | succ m ih =>
    exact List.Perm.trans (ih (listSwap l (m + 1) (rand (m + 1))))
      (listSwap_perm l (m + 1) (rand (m + 1)))

theorem fisherYates_perm (rand : Nat → Nat) (l : List α) :
    List.Perm (fisherYates rand l) l :=
  fyFrom_perm rand (l.length - 1) l

/- ── Helper lemmas: the dedup merge ─────────────────────────────────────── -/

/-- Recursive form of the pool component of the merge fold. -/
def dedupRec (s : List Nat) : List TmdbItem → List TmdbItem
  | [] => []
  | it :: rest =>
    match it.id with
    | none => dedupRec s rest
    | some i => if s.contains i then dedupRec s rest else it :: dedupRec (i :: s) rest

/-- Recursive form of the seen component of the merge fold. -/
def seenRec (s : List Nat) : List TmdbItem → List Nat
  | [] => s
  | it :: rest =>
    match it.id with
    | none => seenRec s rest
    | some i => if s.contains i then seenRec s rest else seenRec (i :: s) rest

theorem dedup_foldl (L : List TmdbItem) :
    ∀ (s : List Nat) (a : List TmdbItem),
      L.foldl dedupStep (s, a) = (seenRec s L, a ++ dedupRec s L) := by
  induction L with
  | nil => intro s a; simp [seenRec, dedupRec]
  | cons it rest ih =>
    intro s a
    cases hid : it.id with
    | none =>
      simp only [List.foldl_cons, dedupStep, hid, seenRec, dedupRec]
      exact ih s a
    | some i =>
      by_cases hc : s.contains i
      · simp only [List.foldl_cons, dedupStep, hid, hc, if_true, seenRec, dedupRec]
        exact ih s a
      · simp only [List.foldl_cons, dedupStep, hid, hc, if_false, seenRec, dedupRec,
          Bool.false_eq_true]
        rw [ih (i :: s) (a ++ [it])]
        simp

theorem dedupRec_append (A B : List TmdbItem) :
    ∀ s, dedupRec s (A ++ B) = dedupRec s A ++ dedupRec (seenRec s A) B := by
  induction A with
  | nil => intro s; simp [dedupRec, seenRec]
  | cons it rest ih =>
    intro s
    cases hid : it.id with
    | none => simp only [List.cons_append, dedupRec, hid, seenRec]; exact ih s
    | some i =>
      by_cases hc : s.contains i
      · simp only [List.cons_append, dedupRec, hid, hc, if_true, seenRec]
        exact ih s
      · simp only [List.cons_append, dedupRec, hid, hc, if_false, seenRec,
          Bool.false_eq_true, List.cons_append, List.append_eq]
        rw [ih (i :: s)]

/-- Ids of the items of a pool. -/
def idsOf (l : List TmdbItem) : List Nat := l.filterMap (·.id)

theorem dedupRec_mem {it : TmdbItem} :
    ∀ (L : List TmdbItem) (s : List Nat), it ∈ dedupRec s L → it ∈ L := by
  intro L
  induction L with
  | nil => intro s h; exact absurd h (by simp [dedupRec])
  | cons x rest ih =>
    intro s h
    cases hid : x.id with
    | none =>
      simp only [dedupRec, hid] at h
      exact List.mem_cons_of_mem _ (ih s h)
    | some i =>
      by_cases hc : s.contains i
      · simp only [dedupRec, hid, hc, if_true] at h
        exact List.mem_cons_of_mem _ (ih s h)
      · simp only [dedupRec, hid, hc, if_false, Bool.false_eq_true] at h
        rcases List.mem_cons.mp h with h1 | h2
        · exact h1 ▸ List.mem_cons_self _ _
        · exact List.mem_cons_of_mem _ (ih (i :: s) h2)

theorem dedupRec_spec {it : TmdbItem} :
    ∀ (L : List TmdbItem) (s : List Nat), it ∈ dedupRec s L →
      ∃ i, it.id = some i ∧ s.contains i = false ∧
        L.find? (fun x => x.id == some i) = some it := by
  intro L
  induction L with
  | nil => intro s h; exact absurd h (by simp [dedupRec])
  | cons x rest ih =>
    intro s h
    cases hid : x.id with
    | none =>
      simp only [dedupRec, hid] at h
      obtain ⟨i, h1, h2, h3⟩ := ih s h
      refine ⟨i, h1, h2, ?_⟩
      rw [List.find?_cons_of_neg, h3]
      simp [hid]
    | some i0 =>
      by_cases hc : s.contains i0
      · simp only [dedupRec, hid, hc, if_true] at h
        obtain ⟨i, h1, h2, h3⟩ := ih s h
        refine ⟨i, h1, h2, ?_⟩
        rw [List.find?_cons_of_neg, h3]
        simp only [hid, beq_iff_eq, Option.some.injEq]
        intro he
        rw [he] at hc
        rw [hc] at h2
        exact Bool.noConfusion h2
      · simp only [dedupRec, hid, hc, if_false, Bool.false_eq_true] at h
        rcases List.mem_cons.mp h with h1 | h2
        · refine ⟨i0, by rw [h1]; exact hid, by simpa using hc, ?_⟩
          rw [List.find?_cons_of_pos, h1]
          simp [hid]
        · obtain ⟨i, h1, h2, h3⟩ := ih (i0 :: s) h2
          have hne : ¬ i = i0 := by
            intro he
            rw [he] at h2
            simp [List.contains_cons] at h2
          have hns : s.contains i = false := by
            simp [List.contains_cons, hne] at h2
            simpa using h2
          refine ⟨i, h1, hns, ?_⟩
          rw [List.find?_cons_of_neg, h3]
          simp only [hid, beq_iff_eq, Option.some.injEq]
          intro he
          exact hne he.symm

theorem dedupRec_nodup :
    ∀ (L : List TmdbItem) (s : List Nat),
      (idsOf (dedupRec s L)).Nodup ∧
        ∀ i ∈ idsOf (dedupRec s L), s.contains i = false := by
  intro L
  induction L with
  | nil => intro s; simp [dedupRec, idsOf]
  | cons x rest ih =>
    intro s
    cases hid : x.id with
    | none => simpa only [dedupRec, hid] using ih s
    | some i0 =>
      by_cases hc : s.contains i0
      · simpa only [dedupRec, hid, hc, if_true] using ih s
      · simp only [dedupRec, hid, hc, if_false, Bool.false_eq_true]
        obtain ⟨hnd, hfresh⟩ := ih (i0 :: s)
        have hids : idsOf (x :: dedupRec (i0 :: s) rest)
            = i0 :: idsOf (dedupRec (i0 :: s) rest) := by
          simp [idsOf, List.filterMap_cons, hid]
        rw [hids]
        constructor
        · refine List.nodup_cons.mpr ⟨?_, hnd⟩
          intro hmem
          have := hfresh i0 hmem
          simp [List.contains_cons] at this
        · intro i hi
          rcases List.mem_cons.mp hi with h1 | h2
          · rw [h1]; simpa using hc
          · have := hfresh i h2
            simp only [List.contains_cons, Bool.or_eq_false_iff] at this
            exact this.2

theorem dedupRec_complete {x : TmdbItem} {i : Nat} :
    ∀ (L : List TmdbItem) (s : List Nat), x ∈ L → x.id = some i →
      s.contains i = false → ∃ it ∈ dedupRec s L, it.id = some i := by
  intro L
  induction L with
  | nil => intro s h; exact absurd h (List.not_mem_nil x)
  | cons y rest ih =>
    intro s hmem hid hs
    rcases List.mem_cons.mp hmem with h1 | h2
    · subst h1
      simp only [dedupRec, hid, hs, Bool.false_eq_true, if_false]
      exact ⟨x, List.mem_cons_self _ _, hid⟩
    · cases hyid : y.id with
      | none =>
        simp only [dedupRec, hyid]
        exact ih s h2 hid hs
      | some j =>
        by_cases hc : s.contains j
        · simp only [dedupRec, hyid, hc, if_true]
          exact ih s h2 hid hs
        · simp only [dedupRec, hyid, hc, if_false, Bool.false_eq_true]
          by_cases hij : i = j
          · exact ⟨y, List.mem_cons_self _ _, by rw [hyid, hij]⟩
          · have hs2 : (j :: s).contains i = false := by
              rw [List.contains_cons, beq_false_of_ne hij, hs]
              rfl
            obtain ⟨it, hit, hitid⟩ := ih (j :: s) h2 hid hs2
            exact ⟨it, List.mem_cons_of_mem _ hit, hitid⟩

/- ── Helper lemmas: the merge folds of the pipeline ─────────────────────── -/

theorem mergePhase1_eq (bi : BuilderInputs) :
    mergePhase1 bi = (seenRec [] (priorityDescOf bi), dedupRec [] (priorityDescOf bi)) := by
  unfold mergePhase1
  rw [dedup_foldl]
  simp

theorem concat_fold_acc (df : List (Option (List TmdbItem))) :
    ∀ a : List TmdbItem,
      df.foldl (fun acc r => acc ++ r.getD []) a
        = a ++ df.foldl (fun acc r => acc ++ r.getD []) [] := by
  induction df with
  | nil => intro a; simp
  | cons r rest ih =>
    intro a
    simp only [List.foldl_cons, List.nil_append]
    rw [ih (a ++ r.getD []), ih (r.getD [])]
    simp

theorem phase2_fold_eq (df : List (Option (List TmdbItem))) :
    ∀ st : List Nat × List TmdbItem,
      df.foldl (fun st r => (r.getD []).foldl dedupStep st) st
        = (df.foldl (fun acc r => acc ++ r.getD []) []).foldl dedupStep st := by
  induction df with
  | nil => intro st; simp
  | cons r rest ih =>
    intro st
    simp only [List.foldl_cons, List.nil_append]
    rw [ih ((r.getD []).foldl dedupStep st), concat_fold_acc rest (r.getD []),
      List.foldl_append]

theorem mergedPool_eq (bi : BuilderInputs) :
    mergedPoolOf bi = dedupRec [] (loadOrderOf bi) := by
  unfold mergedPoolOf
  rw [phase2_fold_eq, mergePhase1_eq]
  rw [dedup_foldl]
  rw [loadOrderOf, dedupRec_append]
  rfl

theorem descCount_eq (bi : BuilderInputs) :
    descCountOf bi = (dedupRec [] (priorityDescOf bi)).length := by
  unfold descCountOf
  rw [mergePhase1_eq]

theorem mergedPool_split (bi : BuilderInputs) :
    mergedPoolOf bi = dedupRec [] (priorityDescOf bi)
      ++ dedupRec (seenRec [] (priorityDescOf bi)) (discoverItemsConcat bi) := by
  rw [mergedPool_eq, loadOrderOf, dedupRec_append]

theorem descCount_le (bi : BuilderInputs) :
    descCountOf bi ≤ (mergedPoolOf bi).length := by
  rw [descCount_eq, mergedPool_split]
  simp

theorem mergedPool_take (bi : BuilderInputs) :
    (mergedPoolOf bi).take (descCountOf bi) = dedupRec [] (priorityDescOf bi) := by
  rw [mergedPool_split, descCount_eq]
  exact List.take_left _ _

theorem mergedPool_drop (bi : BuilderInputs) :
    (mergedPoolOf bi).drop (descCountOf bi)
      = dedupRec (seenRec [] (priorityDescOf bi)) (discoverItemsConcat bi) := by
  rw [mergedPool_split, descCount_eq]
  exact List.drop_left _ _

theorem builtPool_perm (bi : BuilderInputs) :
    List.Perm (builtPoolOf bi) (mergedPoolOf bi) := by
  unfold builtPoolOf
  have h := (fisherYates_perm bi.rand ((mergedPoolOf bi).drop (descCountOf bi))).append_left
    ((mergedPoolOf bi).take (descCountOf bi))
  exact h.trans (by rw [List.take_append_drop])

theorem builtPool_length (bi : BuilderInputs) :
    (builtPoolOf bi).length = (mergedPoolOf bi).length :=
  (builtPool_perm bi).length_eq

/- ── Helper lemmas: failure normalization ───────────────────────────────── -/

theorem foldl_normalize {σ : Type} (h : σ → List TmdbItem → σ)
    (l : List (Option (List TmdbItem))) :
    ∀ s : σ, (l.map normalizeSettled).foldl (fun st r => h st (r.getD [])) s
      = l.foldl (fun st r => h st (r.getD [])) s := by
  induction l with
  | nil => intro s; rfl
  | cons r rest ih =>
    intro s
    simp only [List.map_cons, List.foldl_cons, normalizeSettled, Option.getD_some]
    exact ih _

/- ── Claim C2 ───────────────────────────────────────────────────────────── -/

/-- C2: for every built candidate pool and every outcome of the random
shuffle, the priority (description-derived) prefix is never moved or
reordered — position by position it coincides with the merged pool before
the shuffle — while the general suffix after the prefix is exactly a
permutation of the pre-shuffle general items; hence every priority item
position (below descCount) precedes every general item position (at or
above descCount). -/
theorem priority_order_invariant (bi : BuilderInputs) :
    (builtPoolOf bi).take (descCountOf bi) = (mergedPoolOf bi).take (descCountOf bi)
    ∧ List.Perm ((builtPoolOf bi).drop (descCountOf bi))
        ((mergedPoolOf bi).drop (descCountOf bi))
    ∧ (∀ i, i < descCountOf bi → (builtPoolOf bi)[i]? = (mergedPoolOf bi)[i]?)
    ∧ ∀ j, descCountOf bi ≤ j → j < (builtPoolOf bi).length →
        ∃ x ∈ (mergedPoolOf bi).drop (descCountOf bi), (builtPoolOf bi)[j]? = some x := by
  have hlen : ((mergedPoolOf bi).take (descCountOf bi)).length = descCountOf bi := by
    rw [List.length_take]
    exact min_eq_left (descCount_le bi)
  have htake : (builtPoolOf bi).take (descCountOf bi)
      = (mergedPoolOf bi).take (descCountOf bi) := by
    unfold builtPoolOf
    exact List.take_left' hlen
  have hdrop : (builtPoolOf bi).drop (descCountOf bi)
      = fisherYates bi.rand ((mergedPoolOf bi).drop (descCountOf bi)) := by
    unfold builtPoolOf
    exact List.drop_left' hlen
  have hperm : List.Perm ((builtPoolOf bi).drop (descCountOf bi))
      ((mergedPoolOf bi).drop (descCountOf bi)) := by
    rw [hdrop]
    exact fisherYates_perm _ _
  refine ⟨htake, hperm, ?_, ?_⟩
  · intro i hi
    have h1 : (builtPoolOf bi)[i]? = ((builtPoolOf bi).take (descCountOf bi))[i]? := by
      rw [List.getElem?_take, if_pos hi]
    have h2 : (mergedPoolOf bi)[i]? = ((mergedPoolOf bi).take (descCountOf bi))[i]? := by
      rw [List.getElem?_take, if_pos hi]
    rw [h1, h2, htake]
  · intro j hj1 hj2
    have hsplit : builtPoolOf bi
        = (builtPoolOf bi).take (descCountOf bi) ++ (builtPoolOf bi).drop (descCountOf bi) :=
      (List.take_append_drop _ _).symm
    have hlenb : ((builtPoolOf bi).take (descCountOf bi)).length = descCountOf bi := by
      rw [htake]; exact hlen
    have hidx : (builtPoolOf bi)[j]?
        = ((builtPoolOf bi).drop (descCountOf bi))[j - descCountOf bi]? := by
      conv_lhs => rw [hsplit]
      rw [List.getElem?_append_right (by rw [hlenb]; exact hj1), hlenb]
    have hjlt : j - descCountOf bi < ((builtPoolOf bi).drop (descCountOf bi)).length := by
      rw [List.length_drop]
      omega
    refine ⟨((builtPoolOf bi).drop (descCountOf bi))[j - descCountOf bi], ?_, ?_⟩
    · exact hperm.mem_iff.mp (List.getElem_mem hjlt)
    · rw [hidx]
      exact List.getElem?_eq_getElem hjlt

/- ── Concrete example data for witnesses and counterexamples ────────────── -/

/-- A catalog item with id 1 and title Alpha. -/
def itmA : TmdbItem :=
  ⟨some 1, some "Alpha", none, some "2001-05-03", none, some "A strange film.", none,
    some "/a.png"⟩

/-- A catalog item with id 2 and title Beta. -/
def itmB : TmdbItem :=
  ⟨some 2, some "Beta", none, none, none, none, none, none⟩

/-- A catalog item with id 3 and series name Gamma. -/
def itmC : TmdbItem :=
  ⟨some 3, none, some "Gamma", none, some "2010-01-01", none, none, some ""⟩

/-- Builder inputs with one validated description item and two general
items. -/
def biW : BuilderInputs :=
  ⟨some (some ⟨["q"], ["t"]⟩), [some [itmA]], [some [itmA, itmB, itmC]],
    fun _ => 0, [], []⟩

/- ── Claim C1 ───────────────────────────────────────────────────────────── -/

/-- C1: every recommendation emitted to the narration step comes from a
returned pick whose index lies in [0, pool length); it is built from an
item of the supplied pool, so its title is the display title of a pool
item; and the number of emitted recommendations equals the number of picks
surviving validation, with no backfill when fewer than 3 survive. -/
theorem pick_validation_sound (ps : List TmdbItem) (picks : List Pick) :
    (pickedItemsOf ps picks).length = (picks.filter (validPick ps.length)).length
    ∧ ∀ b ∈ pickedItemsOf ps picks, ∃ p ∈ picks,
        0 ≤ p.index ∧ p.index < (ps.length : Int) ∧
        ∃ r ∈ ps, b = mkRecommendationBlock r p.vibe
          ∧ b.title = r.title.getD (r.name.getD "Unknown") := by
  constructor
  · unfold pickedItemsOf
    rw [List.length_map]
  · intro b hb
    unfold pickedItemsOf at hb
    obtain ⟨p, hp, hbp⟩ := List.mem_map.mp hb
    have hpv := List.mem_filter.mp hp
    have hvalid := hpv.2
    unfold validPick at hvalid
    rw [Bool.and_eq_true, decide_eq_true_iff, decide_eq_true_iff] at hvalid
    obtain ⟨h0, h1⟩ := hvalid
    have hnat : p.index.toNat < ps.length := by omega
    have hg : ps.getD p.index.toNat default = ps[p.index.toNat] := by
      rw [List.getD_eq_getElem?_getD, List.getElem?_eq_getElem hnat]
      rfl
    refine ⟨p, hpv.1, h0, h1, ps[p.index.toNat], List.getElem_mem hnat, ?_, ?_⟩
    · rw [← hbp, hg]
    · rw [← hbp, hg]
      rfl

/-- The picks of the C1 witness: one valid index, one out of range above,
one negative. -/
def wPicks : List Pick := [⟨0, "Cosy"⟩, ⟨5, "Big"⟩, ⟨-1, "Neg"⟩]

/-- Witness for C1 at a concrete pool and concrete picks. -/
theorem pick_validation_sound_witness :
    (pickedItemsOf [itmA] wPicks).length = 1
    ∧ ∃ p ∈ wPicks,
        0 ≤ p.index ∧ p.index < ((1 : Nat) : Int) ∧
        ∃ r ∈ [itmA], mkRecommendationBlock itmA "Cosy" = mkRecommendationBlock r p.vibe
          ∧ (mkRecommendationBlock itmA "Cosy").title = r.title.getD (r.name.getD "Unknown") := by
  have h := pick_validation_sound [itmA] wPicks
  constructor
  · rw [h.1]
    decide
  · have h2 := h.2 (mkRecommendationBlock itmA "Cosy") (by decide)
    simpa using h2

/- ── Claim C3 ───────────────────────────────────────────────────────────── -/

/-- Builder inputs where every discover query failed but a description
search succeeded: the code keeps the unvalidated description items. -/
def ceC3 : BuilderInputs :=
  ⟨some (some ⟨["q"], []⟩), [some [itmA]], [none, none, none, none, none],
    fun _ => 0, [], []⟩

/-- Counterexample to C3 as stated: at ceC3 every discovery query failed,
so the discovery id set is empty, yet the description item with id 1 is
kept in priorityDesc even though its identifier does not appear among the
discovery results — the filter is skipped entirely in that case. -/
theorem desc_filter_claim_false :
    ¬ (∀ it ∈ priorityDescOf ceC3,
        ∃ i, it.id = some i ∧ (discoverIdsOf ceC3).contains i = true) := by
  intro h
  have hmem : itmA ∈ priorityDescOf ceC3 := by
    rw [show priorityDescOf ceC3 = [itmA] from rfl]
    exact List.mem_singleton_self _
  obtain ⟨i, _, hc⟩ := h itmA hmem
  rw [show discoverIdsOf ceC3 = [] from rfl] at hc
  exact Bool.noConfusion hc

/-- C3 amended: a description-derived item is kept only if its identifier
appears among the region-scoped discovery ids whenever the discovery
queries yield at least one id; when they yield none (all failed or empty)
the description items are kept unfiltered.  The kept items keep their
original relative order (a sublist of the description pool) and the
priority prefix of the merged pool is their id-deduplication. -/
theorem desc_filter_amended (bi : BuilderInputs) :
    (0 < (discoverIdsOf bi).length →
      ∀ it ∈ priorityDescOf bi,
        ∃ i, it.id = some i ∧ (discoverIdsOf bi).contains i = true)
    ∧ ((discoverIdsOf bi).length = 0 → priorityDescOf bi = descriptionPoolOf bi)
    ∧ List.Sublist (priorityDescOf bi) (descriptionPoolOf bi)
    ∧ (mergedPoolOf bi).take (descCountOf bi) = dedupRec [] (priorityDescOf bi) := by
  refine ⟨?_, ?_, ?_, mergedPool_take bi⟩
  · intro hpos it hit
    unfold priorityDescOf at hit
    rw [if_pos hpos] at hit
    obtain ⟨hmem, hpred⟩ := List.mem_filter.mp hit
    cases hid : it.id with
    | none =>
      rw [hid] at hpred
      exact Bool.noConfusion hpred
    | some i =>
      rw [hid] at hpred
      exact ⟨i, rfl, hpred⟩
  · intro h0
    unfold priorityDescOf
    rw [if_neg (by omega)]
  · unfold priorityDescOf
    by_cases hpos : 0 < (discoverIdsOf bi).length
    · rw [if_pos hpos]
      exact List.filter_sublist _
    · rw [if_neg hpos]

/-- Witness for the amended C3: at biW the discovery ids are nonempty and
the kept description item has id 1 among them; at ceC3 the discovery ids
are empty and the description pool passes through unfiltered. -/
theorem desc_filter_amended_witness :
    (∃ i, itmA.id = some i ∧ (discoverIdsOf biW).contains i = true)
    ∧ priorityDescOf ceC3 = descriptionPoolOf ceC3 := by
  constructor
  · refine (desc_filter_amended biW).1 (by decide) itmA ?_
    rw [show priorityDescOf biW = [itmA] from rfl]
    exact List.mem_singleton_self _
  · exact (desc_filter_amended ceC3).2.1 (by decide)

/- ── Claim C4 ───────────────────────────────────────────────────────────── -/

/-- C4: the merged pool (and the shuffled pool built from it) carries each
identifier exactly once; each retained item is the first record with its
identifier in the load order — priority items first, then discovery
results in query order — and every identifier occurring anywhere in that
load order is represented; items without an identifier are never
retained. -/
theorem dedup_first_occurrence (bi : BuilderInputs) :
    (idsOf (mergedPoolOf bi)).Nodup
    ∧ (idsOf (builtPoolOf bi)).Nodup
    ∧ (∀ it ∈ mergedPoolOf bi, ∃ i, it.id = some i
        ∧ (loadOrderOf bi).find? (fun x => x.id == some i) = some it)
    ∧ ∀ x ∈ loadOrderOf bi, ∀ i, x.id = some i →
        ∃ it ∈ mergedPoolOf bi, it.id = some i := by
  have hmerge := mergedPool_eq bi
  have hnd : (idsOf (mergedPoolOf bi)).Nodup := by
    rw [hmerge]
    exact (dedupRec_nodup _ _).1
  refine ⟨hnd, ?_, ?_, ?_⟩
  · have hperm : List.Perm (idsOf (builtPoolOf bi)) (idsOf (mergedPoolOf bi)) :=
      (builtPool_perm bi).filterMap _
    exact hperm.nodup_iff.mpr hnd
  · intro it hit
    rw [hmerge] at hit
    obtain ⟨i, h1, _, h3⟩ := dedupRec_spec _ _ hit
    exact ⟨i, h1, h3⟩
  · intro x hx i hid
    rw [hmerge]
    exact dedupRec_complete _ _ hx hid rfl

/-- Witness for C4: at biW the general item with id 2 is retained and is
the first record with id 2 in the load order. -/
theorem dedup_first_occurrence_witness :
    ∃ i, itmB.id = some i
      ∧ (loadOrderOf biW).find? (fun x => x.id == some i) = some itmB := by
  refine (dedup_first_occurrence biW).2.2.1 itmB ?_
  rw [show mergedPoolOf biW = [itmA, itmB, itmC] from rfl]
  exact List.mem_cons_of_mem _ (List.mem_cons_self _ _)

/- ── Claim C5 ───────────────────────────────────────────────────────────── -/

theorem filterMap_chunk_replicate (n : Nat) :
    (List.replicate n StreamEv.consult).filterMap chunkOfEv = [] := by
  induction n with
  | zero => rfl
  | succ m ih => rw [List.replicate_succ, List.filterMap_cons]; exact ih

theorem filter_isFound_replicate (n : Nat) :
    (List.replicate n StreamEv.consult).filter isFoundEv = [] := by
  induction n with
  | zero => rfl
  | succ m ih => rw [List.replicate_succ, List.filter_cons]; simp [isFoundEv, ih]

theorem filter_isFound_narr (narr : List String) :
    (narr.map StreamEv.emitNarr).filter isFoundEv = [] := by
  induction narr with
  | nil => rfl
  | cons s rest ih => simp [List.filter_cons, isFoundEv, ih]

theorem filterMap_chunk_narr (narr : List String) :
    (narr.map StreamEv.emitNarr).filterMap chunkOfEv = narr := by
  induction narr with
  | nil => rfl
  | cons s rest ih => simp [List.filterMap_cons, chunkOfEv, ih]

theorem emittedChunks_eq (bi : BuilderInputs) (narr : List String) :
    emittedChunksOf (recommendEventsOf bi narr)
      = "[SEARCHING]\n" :: foundMarker (foundCountOf bi) :: narr := by
  unfold emittedChunksOf recommendEventsOf
  rw [List.filterMap_cons, List.filterMap_append, filterMap_chunk_replicate,
    List.filterMap_cons, filterMap_chunk_narr]
  rfl

/-- C5: in every response trace, the searching marker is the first event
and is emitted before every consultation of a settled catalog result; the
found marker is emitted exactly once, after all consultations and before
every narration chunk; the emitted byte stream is exactly the searching
marker, then the found marker carrying the pre-truncation pool size, then
the narration chunks in model order; and the byte offset of the searching
marker (0) precedes that of the found marker (12), which precedes the
offset of the first narration byte. -/
theorem stream_phase_order (bi : BuilderInputs) (narr : List String) :
    emittedChunksOf (recommendEventsOf bi narr)
        = "[SEARCHING]\n" :: foundMarker (foundCountOf bi) :: narr
    ∧ ((recommendEventsOf bi narr).filter isFoundEv).length = 1
    ∧ (recommendEventsOf bi narr).head? = some StreamEv.emitSearching
    ∧ (recommendEventsOf bi narr)[foundEvIdx bi]?
        = some (StreamEv.emitFound (foundCountOf bi))
    ∧ (∀ i, (recommendEventsOf bi narr)[i]? = some StreamEv.consult →
        0 < i ∧ i < foundEvIdx bi)
    ∧ chunkOffset (emittedChunksOf (recommendEventsOf bi narr)) 0 = 0
    ∧ chunkOffset (emittedChunksOf (recommendEventsOf bi narr)) 1 = 12
    ∧ chunkOffset (emittedChunksOf (recommendEventsOf bi narr)) 2
        = 12 + (foundMarker (foundCountOf bi)).length
    ∧ 12 < chunkOffset (emittedChunksOf (recommendEventsOf bi narr)) 2 := by
  have hchunks := emittedChunks_eq bi narr
  have hk : (List.replicate (1 + bi.descSearches.length + bi.discoverFetches.length)
      StreamEv.consult).length = 1 + bi.descSearches.length + bi.discoverFetches.length :=
    List.length_replicate _ _
  refine ⟨hchunks, ?_, rfl, ?_, ?_, rfl, ?_, ?_, ?_⟩
  · unfold recommendEventsOf
    rw [List.filter_cons, List.filter_append, filter_isFound_replicate,
      List.filter_cons, filter_isFound_narr]
    simp [isFoundEv]
  · unfold recommendEventsOf foundEvIdx
    have h2 : 2 + bi.descSearches.length + bi.discoverFetches.length
        = (1 + bi.descSearches.length + bi.discoverFetches.length) + 1 := by omega
    rw [h2, List.getElem?_cons_succ, List.getElem?_append_right (by rw [hk]), hk,
      Nat.sub_self, List.getElem?_cons_zero]
  · intro i hi
    match i with
    | 0 =>
      unfold recommendEventsOf at hi
      rw [List.getElem?_cons_zero] at hi
      exact absurd (Option.some.inj hi) (fun h => StreamEv.noConfusion h)
    | j + 1 =>
      refine ⟨Nat.succ_pos j, ?_⟩
      unfold recommendEventsOf at hi
      rw [List.getElem?_cons_succ] at hi
      by_contra hge
      unfold foundEvIdx at hge
      have hjk : 1 + bi.descSearches.length + bi.discoverFetches.length ≤ j := by omega
      rw [List.getElem?_append_right (by rw [hk]; exact hjk), hk] at hi
      cases hsub : j - (1 + bi.descSearches.length + bi.discoverFetches.length) with
      | zero =>
        rw [hsub, List.getElem?_cons_zero] at hi
        exact StreamEv.noConfusion (Option.some.inj hi)
      | succ m =>
        rw [hsub, List.getElem?_cons_succ, List.getElem?_map] at hi
        cases hnm : narr[m]? with
        | none => rw [hnm] at hi; exact Option.noConfusion hi
        | some s =>
          rw [hnm] at hi
          exact StreamEv.noConfusion (Option.some.inj hi)
  · rw [hchunks]
    unfold chunkOffset
    rw [show List.take 1 ("[SEARCHING]\n" :: foundMarker (foundCountOf bi) :: narr)
      = ["[SEARCHING]\n"] from rfl]
    decide
  · rw [hchunks]
    unfold chunkOffset
    rw [show List.take 2 ("[SEARCHING]\n" :: foundMarker (foundCountOf bi) :: narr)
      = ["[SEARCHING]\n", foundMarker (foundCountOf bi)] from rfl]
    simp [show ("[SEARCHING]\n").length = 12 from by decide]
  · rw [hchunks]
    unfold chunkOffset foundMarker
    rw [show List.take 2 ("[SEARCHING]\n" :: ("[FOUND:" ++ toString (foundCountOf bi) ++ "]\n") :: narr)
      = ["[SEARCHING]\n", "[FOUND:" ++ toString (foundCountOf bi) ++ "]\n"] from rfl]
    have hlen : ("[FOUND:" ++ toString (foundCountOf bi) ++ "]\n").length
        = 7 + (toString (foundCountOf bi)).length + 2 := by
      rw [String.length_append, String.length_append]
      simp [show ("[FOUND:").length = 7 from by decide, show ("]\n").length = 2 from by decide]
    simp [show ("[SEARCHING]\n").length = 12 from by decide, hlen]

/-- Witness for C5: in the trace of a concrete request, the consult event
at position 1 lies strictly between the searching emission (position 0)
and the found emission. -/
theorem stream_phase_order_witness : 0 < 1 ∧ 1 < foundEvIdx biW :=
  (stream_phase_order biW ["hello"]).2.2.2.2.1 1 (by decide)

/- ── Claim C6 ───────────────────────────────────────────────────────────── -/

/-- Builder inputs whose pool holds Alpha and Beta while the caller has
already liked Alpha. -/
def ceC6 : BuilderInputs :=
  ⟨none, [], [some [itmA, itmB]], fun _ => 0, ["Alpha"], []⟩

/-- Counterexample to C6 as stated: at ceC6 the seen-title filter removes
Alpha, so the pool that is truncated (freshPool, of size 1) differs from
the pool whose size is emitted in the found marker (pool, of size 2): the
marker does not carry the pre-truncation size of the truncated pool. -/
theorem found_count_claim_false :
    ¬ (foundCountOf ceC6 = (freshPoolOf ceC6).length) := by
  decide

/-- C6 amended: the pool passed to curation is the seen-filtered pool
truncated to at most 30 items, and the found count equals the size of the
merged (pre-seen-filter, pre-truncation) pool; the two sizes agree
whenever no seen titles were supplied. -/
theorem found_count_amended (bi : BuilderInputs) :
    poolSliceOf bi = (freshPoolOf bi).take 30
    ∧ foundCountOf bi = (mergedPoolOf bi).length
    ∧ ((seenTitlesOf bi).length = 0 → foundCountOf bi = (freshPoolOf bi).length)
    ∧ (poolSliceOf bi).length ≤ 30 := by
  refine ⟨rfl, builtPool_length bi, ?_, ?_⟩
  · intro h0
    unfold freshPoolOf
    rw [if_neg (by omega)]
    rfl
  · unfold poolSliceOf
    rw [List.length_take]
    exact min_le_left _ _

/-- Witness for the amended C6 at a request with no seen titles. -/
theorem found_count_amended_witness :
    foundCountOf biW = (freshPoolOf biW).length :=
  (found_count_amended biW).2.2.1 (by decide)

/- ── Claim C7 ───────────────────────────────────────────────────────────── -/

/-- C7: no item of the seen-filtered pool — hence no item of the truncated
pool passed to curation — has a display title whose lowercasing appears
among the lowercased liked and disliked entries, and in particular no
caller-supplied entry matches it case-insensitively; the filter is applied
before the truncation to 30. -/
theorem seen_title_exclusion (bi : BuilderInputs) :
    (∀ x ∈ freshPoolOf bi,
        (seenTitlesOf bi).contains (strLower (itemDisplayName x)) = false)
    ∧ (∀ x ∈ poolSliceOf bi,
        (seenTitlesOf bi).contains (strLower (itemDisplayName x)) = false)
    ∧ (∀ x ∈ poolSliceOf bi, ∀ t ∈ bi.liked ++ bi.disliked,
        strLower t ≠ strLower (itemDisplayName x))
    ∧ poolSliceOf bi = (freshPoolOf bi).take 30 := by
  have hfresh : ∀ x ∈ freshPoolOf bi,
      (seenTitlesOf bi).contains (strLower (itemDisplayName x)) = false := by
    intro x hx
    unfold freshPoolOf at hx
    by_cases h0 : 0 < (seenTitlesOf bi).length
    · rw [if_pos h0] at hx
      have hp := (List.mem_filter.mp hx).2
      simpa using hp
    · rw [if_neg h0] at hx
      have hnil : seenTitlesOf bi = [] := List.length_eq_zero.mp (by omega)
      rw [hnil]
      rfl
  have hslice : ∀ x ∈ poolSliceOf bi,
      (seenTitlesOf bi).contains (strLower (itemDisplayName x)) = false := by
    intro x hx
    unfold poolSliceOf at hx
    exact hfresh x (List.take_subset _ _ hx)
  refine ⟨hfresh, hslice, ?_, rfl⟩
  intro x hx t ht heq
  have hmem : strLower (itemDisplayName x) ∈ seenTitlesOf bi := by
    unfold seenTitlesOf
    exact List.mem_map.mpr ⟨t, ht, heq⟩
  have hfalse := hslice x hx
  have htrue : (seenTitlesOf bi).contains (strLower (itemDisplayName x)) = true :=
    List.elem_eq_true_of_mem hmem
  rw [htrue] at hfalse
  exact Bool.noConfusion hfalse

/-- Witness for C7 at ceC6: Beta survives the seen filter and its
lowercased title is not among the seen titles. -/
theorem seen_title_exclusion_witness :
    (seenTitlesOf ceC6).contains (strLower (itemDisplayName itmB)) = false := by
  refine (seen_title_exclusion ceC6).1 itmB ?_
  rw [show freshPoolOf ceC6 = [itmB] from rfl]
  exact List.mem_singleton_self _

/- ── Claim C8 ───────────────────────────────────────────────────────────── -/

theorem hasParam_of_mem {q : List (String × String)} {k v : String}
    (h : (k, v) ∈ q) : hasParam q k = true := by
  unfold hasParam
  rw [List.any_eq_true]
  exact ⟨(k, v), h, by simp⟩

theorem hasParam_append_left {l1 : List (String × String)} (l2 : List (String × String))
    {k : String} (h : hasParam l1 k = true) : hasParam (l1 ++ l2) k = true := by
  unfold hasParam at h ⊢
  rw [List.any_append, h]
  rfl

theorem baseParams_region (g p : List Nat) (c : String) :
    hasParam (baseParams g p c) "watch_region" = true := by
  unfold baseParams
  by_cases hp : 0 < p.length
  · refine hasParam_of_mem (v := c) (List.mem_append_right _ ?_)
    rw [if_pos hp]
    exact List.mem_cons_of_mem _ (List.mem_cons_self _ _)
  · refine hasParam_of_mem (v := c) (List.mem_append_right _ ?_)
    rw [if_neg hp]
    exact List.mem_cons_self _ _

theorem baseParams_providers (g p : List Nat) (c : String) (hp : 0 < p.length) :
    hasParam (baseParams g p c) "with_watch_providers" = true := by
  unfold baseParams
  refine hasParam_of_mem (v := String.intercalate "|" (p.map toString))
    (List.mem_append_right _ ?_)
  rw [if_pos hp]
  exact List.mem_cons_self _ _

theorem baseParams_monetization (g p : List Nat) (c : String) (hp : p.length = 0) :
    hasParam (baseParams g p c) "with_watch_monetization_types" = true := by
  unfold baseParams
  refine hasParam_of_mem (v := "flatrate|free|ads") (List.mem_append_right _ ?_)
  rw [if_neg (by omega)]
  exact List.mem_cons_of_mem _ (List.mem_cons_self _ _)

/-- C8: every one of the five discover queries of any request carries the
region parameter, and never alone — together with the provider filter when
provider ids were supplied, and together with the monetization-types
filter otherwise. -/
theorem region_filter_invariant (mt : MediaType) (genres : List String)
    (providerIds : List Nat) (country : String) :
    ∀ q ∈ discoverQueriesOf mt genres providerIds country,
      hasParam q "watch_region" = true
      ∧ (hasParam q "with_watch_providers" = true
          ∨ hasParam q "with_watch_monetization_types" = true)
      ∧ (0 < providerIds.length → hasParam q "with_watch_providers" = true)
      ∧ (providerIds.length = 0 → hasParam q "with_watch_monetization_types" = true) := by
  intro q hq
  unfold discoverQueriesOf discoverQueries at hq
  have hcore : ∀ extra : List (String × String),
      hasParam (baseParams (selectedGenreIds mt genres) providerIds country ++ extra)
          "watch_region" = true
      ∧ (hasParam (baseParams (selectedGenreIds mt genres) providerIds country ++ extra)
            "with_watch_providers" = true
          ∨ hasParam (baseParams (selectedGenreIds mt genres) providerIds country ++ extra)
              "with_watch_monetization_types" = true)
      ∧ (0 < providerIds.length →
          hasParam (baseParams (selectedGenreIds mt genres) providerIds country ++ extra)
            "with_watch_providers" = true)
      ∧ (providerIds.length = 0 →
          hasParam (baseParams (selectedGenreIds mt genres) providerIds country ++ extra)
            "with_watch_monetization_types" = true) := by
    intro extra
    refine ⟨hasParam_append_left _ (baseParams_region _ _ _), ?_, ?_, ?_⟩
    · by_cases hp : 0 < providerIds.length
      · exact Or.inl (hasParam_append_left _ (baseParams_providers _ _ _ hp))
      · exact Or.inr (hasParam_append_left _ (baseParams_monetization _ _ _ (by omega)))
    · intro hp
      exact hasParam_append_left _ (baseParams_providers _ _ _ hp)
    · intro hp
      exact hasParam_append_left _ (baseParams_monetization _ _ _ hp)
  simp only [List.mem_cons, List.not_mem_nil, or_false] at hq
  rcases hq with rfl | rfl | rfl | rfl | rfl
  · exact hcore _
  · exact hcore _
  · exact hcore _
  · exact hcore _
  · exact hcore _

/-- Witness for C8: the first discover query of a concrete request with no
provider ids carries the region together with the monetization filter. -/
theorem region_filter_invariant_witness :
    hasParam ((baseParams (selectedGenreIds MediaType.movie ["Comedy"]) [] "US")
        ++ [("sort_by", "popularity.desc"), ("page", "1")]) "watch_region" = true
    ∧ hasParam ((baseParams (selectedGenreIds MediaType.movie ["Comedy"]) [] "US")
        ++ [("sort_by", "popularity.desc"), ("page", "1")])
        "with_watch_monetization_types" = true := by
  have h := region_filter_invariant MediaType.movie ["Comedy"] [] "US"
    ((baseParams (selectedGenreIds MediaType.movie ["Comedy"]) [] "US")
      ++ [("sort_by", "popularity.desc"), ("page", "1")])
    (by unfold discoverQueriesOf discoverQueries; exact List.mem_cons_self _ _)
  exact ⟨h.1, h.2.2.2 rfl⟩

/- ── Claim C9 ───────────────────────────────────────────────────────────── -/

/-- C9: the failure of any single builder operation — a discover query, a
description search query, or the search-term extraction model call — is
equivalent to that operation contributing an empty result: replacing every
failed operation by an empty success leaves every builder output
unchanged, so builder errors never alter or abort the pipeline. -/
theorem builder_failure_isolation (bi : BuilderInputs) :
    descriptionPoolOf (normalizeFailures bi) = descriptionPoolOf bi
    ∧ discoverIdsOf (normalizeFailures bi) = discoverIdsOf bi
    ∧ builtPoolOf (normalizeFailures bi) = builtPoolOf bi
    ∧ freshPoolOf (normalizeFailures bi) = freshPoolOf bi
    ∧ poolSliceOf (normalizeFailures bi) = poolSliceOf bi
    ∧ foundCountOf (normalizeFailures bi) = foundCountOf bi := by
  have hdf : (normalizeFailures bi).discoverFetches
      = bi.discoverFetches.map normalizeSettled := rfl
  have hrand : (normalizeFailures bi).rand = bi.rand := rfl
  have hdesc : descriptionPoolOf (normalizeFailures bi) = descriptionPoolOf bi := by
    unfold descriptionPoolOf
    cases hf : bi.filterResult with
    | none =>
      have h1 : (normalizeFailures bi).filterResult = some (some ⟨[], []⟩) := by
        unfold normalizeFailures
        rw [hf]
      have h2 : (normalizeFailures bi).descSearches = [] := by
        unfold normalizeFailures
        rw [hf]
      rw [h1, h2]
      rfl
    | some o =>
      cases o with
      | none =>
        have h1 : (normalizeFailures bi).filterResult = some none := by
          unfold normalizeFailures
          rw [hf]
        rw [h1]
      | some f =>
        have h1 : (normalizeFailures bi).filterResult = some (some f) := by
          unfold normalizeFailures
          rw [hf]
        have h2 : (normalizeFailures bi).descSearches
            = bi.descSearches.map normalizeSettled := by
          unfold normalizeFailures
          rw [hf]
        rw [h1, h2]
        exact foldl_normalize (fun s items => s ++ items) bi.descSearches []
  have hids : discoverIdsOf (normalizeFailures bi) = discoverIdsOf bi := by
    unfold discoverIdsOf
    rw [hdf]
    exact foldl_normalize (fun s items => s ++ items.filterMap (·.id)) bi.discoverFetches []
  have hprio : priorityDescOf (normalizeFailures bi) = priorityDescOf bi := by
    unfold priorityDescOf
    rw [hids, hdesc]
  have hph1 : mergePhase1 (normalizeFailures bi) = mergePhase1 bi := by
    unfold mergePhase1
    rw [hprio]
  have hmerged : mergedPoolOf (normalizeFailures bi) = mergedPoolOf bi := by
    unfold mergedPoolOf
    rw [hph1, hdf]
    exact congrArg Prod.snd
      (foldl_normalize (fun st items => items.foldl dedupStep st)
        bi.discoverFetches (mergePhase1 bi))
  have hdc : descCountOf (normalizeFailures bi) = descCountOf bi := by
    unfold descCountOf
    rw [hph1]
  have hbuilt : builtPoolOf (normalizeFailures bi) = builtPoolOf bi := by
    unfold builtPoolOf
    rw [hmerged, hdc, hrand]
  have hfreshp : freshPoolOf (normalizeFailures bi) = freshPoolOf bi := by
    unfold freshPoolOf
    rw [show seenTitlesOf (normalizeFailures bi) = seenTitlesOf bi from rfl, hbuilt]
  refine ⟨hdesc, hids, hbuilt, hfreshp, ?_, ?_⟩
  · unfold poolSliceOf
    rw [hfreshp]
  · unfold foundCountOf
    rw [hbuilt]

/- ── Claim C10 ──────────────────────────────────────────────────────────── -/

theorem countAllowed_cons_true (r : RateResult) (rs : List RateResult)
    (h : r.allowed = true) : countAllowed (r :: rs) = 1 + countAllowed rs := by
  unfold countAllowed
  simp [List.filter_cons, h, Nat.add_comm]

theorem countAllowed_cons_false (r : RateResult) (rs : List RateResult)
    (h : r.allowed = false) : countAllowed (r :: rs) = countAllowed rs := by
  unfold countAllowed
  simp [List.filter_cons, h]

theorem checkRateLimit_reset (t c R : Nat) (h : R < t) :
    checkRateLimit t (some ⟨c, R⟩)
      = (⟨true, (RATE_LIMIT : Int) - 1, t + RATE_WINDOW_MS⟩,
         some ⟨1, t + RATE_WINDOW_MS⟩) := by
  simp only [checkRateLimit]
  rw [if_pos h]

theorem checkRateLimit_deny (t c R : Nat) (ht : t ≤ R) (hc : RATE_LIMIT ≤ c) :
    checkRateLimit t (some ⟨c, R⟩) = (⟨false, 0, R⟩, some ⟨c, R⟩) := by
  simp only [checkRateLimit]
  rw [if_neg (by omega), if_pos hc]

theorem checkRateLimit_allow (t c R : Nat) (ht : t ≤ R) (hc : c < RATE_LIMIT) :
    checkRateLimit t (some ⟨c, R⟩)
      = (⟨true, (RATE_LIMIT : Int) - (c + 1), R⟩, some ⟨c + 1, R⟩) := by
  simp only [checkRateLimit]
  rw [if_neg (by omega), if_neg (by omega)]

theorem run_window (ts : List Nat) (R : Nat) :
    ∀ c : Nat, (∀ t ∈ ts, t ≤ R) → 1 ≤ c → c ≤ RATE_LIMIT →
      (runRateChecks ts (some ⟨c, R⟩)).2
          = some ⟨c + countAllowed (runRateChecks ts (some ⟨c, R⟩)).1, R⟩
        ∧ c + countAllowed (runRateChecks ts (some ⟨c, R⟩)).1 ≤ RATE_LIMIT := by
  induction ts with
  | nil =>
    intro c _ _ hc2
    constructor
    · unfold runRateChecks countAllowed
      simp
    · unfold runRateChecks countAllowed
      simpa using hc2
  | cons t rest ih =>
    intro c hts hc1 hc2
    have ht : t ≤ R := hts t (List.mem_cons_self _ _)
    have hrest : ∀ u ∈ rest, u ≤ R := fun u hu => hts u (List.mem_cons_of_mem _ hu)
    by_cases hfull : RATE_LIMIT ≤ c
    · have hstep := checkRateLimit_deny t c R ht hfull
      have hrun : runRateChecks (t :: rest) (some ⟨c, R⟩)
          = (⟨false, 0, R⟩ :: (runRateChecks rest (some ⟨c, R⟩)).1,
             (runRateChecks rest (some ⟨c, R⟩)).2) := by
        simp only [runRateChecks]
        rw [hstep]
      obtain ⟨ih1, ih2⟩ := ih c hrest hc1 hc2
      rw [hrun]
      rw [countAllowed_cons_false ⟨false, 0, R⟩
        ((runRateChecks rest (some ⟨c, R⟩)).1) rfl]
      exact ⟨ih1, ih2⟩
    · have hlt : c < RATE_LIMIT := by omega
      have hstep := checkRateLimit_allow t c R ht hlt
      have hrun : runRateChecks (t :: rest) (some ⟨c, R⟩)
          = (⟨true, (RATE_LIMIT : Int) - (c + 1), R⟩
               :: (runRateChecks rest (some ⟨c + 1, R⟩)).1,
             (runRateChecks rest (some ⟨c + 1, R⟩)).2) := by
        simp only [runRateChecks]
        rw [hstep]
      obtain ⟨ih1, ih2⟩ := ih (c + 1) hrest (by omega) (by omega)
      rw [hrun]
      rw [countAllowed_cons_true ⟨true, (RATE_LIMIT : Int) - (c + 1), R⟩
        ((runRateChecks rest (some ⟨c + 1, R⟩)).1) rfl]
      constructor
      · rw [ih1]
        simp only [Nat.add_assoc]
      · omega

/-- C10: sharing one client key, at most 20 checks of any run whose times
all fall inside the 60-second window opened by its first check are
allowed; a check against a full window (count at the limit, time not past
the reset) is denied with remaining 0 and leaves the entry unchanged; the
reported remaining count is never negative; and the first check strictly
after the window reset time — like a check with no entry — opens a fresh
window with count 1. -/
theorem rate_limit_window :
    (∀ t0 ts, (∀ t ∈ ts, t ≤ t0 + RATE_WINDOW_MS) →
        countAllowed (runRateChecks (t0 :: ts) none).1 ≤ RATE_LIMIT)
    ∧ (∀ (now : Nat) (e : RateEntry), RATE_LIMIT ≤ e.count → now ≤ e.resetAt →
        checkRateLimit now (some e) = (⟨false, 0, e.resetAt⟩, some e))
    ∧ (∀ (now : Nat) (entry : Option RateEntry),
        0 ≤ (checkRateLimit now entry).1.remaining)
    ∧ (∀ (now : Nat) (e : RateEntry), e.resetAt < now →
        checkRateLimit now (some e)
          = (⟨true, (RATE_LIMIT : Int) - 1, now + RATE_WINDOW_MS⟩,
             some ⟨1, now + RATE_WINDOW_MS⟩))
    ∧ (∀ now : Nat, checkRateLimit now none
        = (⟨true, (RATE_LIMIT : Int) - 1, now + RATE_WINDOW_MS⟩,
           some ⟨1, now + RATE_WINDOW_MS⟩)) := by
  refine ⟨?_, ?_, ?_, ?_, fun now => rfl⟩
  · intro t0 ts hts
    have hrun : runRateChecks (t0 :: ts) none
        = (⟨true, (RATE_LIMIT : Int) - 1, t0 + RATE_WINDOW_MS⟩
             :: (runRateChecks ts (some ⟨1, t0 + RATE_WINDOW_MS⟩)).1,
           (runRateChecks ts (some ⟨1, t0 + RATE_WINDOW_MS⟩)).2) := rfl
    obtain ⟨_, h2⟩ := run_window ts (t0 + RATE_WINDOW_MS) 1 hts (by omega)
      (by unfold RATE_LIMIT; omega)
    rw [hrun]
    rw [countAllowed_cons_true ⟨true, (RATE_LIMIT : Int) - 1, t0 + RATE_WINDOW_MS⟩
      ((runRateChecks ts (some ⟨1, t0 + RATE_WINDOW_MS⟩)).1) rfl]
    omega
  · intro now e hc hnow
    obtain ⟨c, R⟩ := e
    exact checkRateLimit_deny now c R hnow hc
  · intro now entry
    cases entry with
    | none =>
      show (0 : Int) ≤ (RATE_LIMIT : Int) - 1
      decide
    | some e =>
      obtain ⟨c, R⟩ := e
      by_cases h1 : R < now
      · rw [checkRateLimit_reset now c R h1]
        show (0 : Int) ≤ (RATE_LIMIT : Int) - 1
        decide
      · by_cases h2 : RATE_LIMIT ≤ c
        · rw [checkRateLimit_deny now c R (by omega) h2]
        · rw [checkRateLimit_allow now c R (by omega) (by omega)]
          show (0 : Int) ≤ (RATE_LIMIT : Int) - (c + 1)
          have hc : c < RATE_LIMIT := by omega
          unfold RATE_LIMIT at hc ⊢
          omega
  · intro now e h1
    obtain ⟨c, R⟩ := e
    exact checkRateLimit_reset now c R h1

/-- Witness for C10: a three-check run inside one window stays at or below
the limit; a check against a full window is denied with remaining 0; a
check after the reset time opens a fresh window with count 1; and a
first-ever check has nonnegative remaining. -/
theorem rate_limit_window_witness :
    countAllowed (runRateChecks (0 :: [1, 2]) none).1 ≤ RATE_LIMIT
    ∧ checkRateLimit 50 (some ⟨20, 100⟩) = (⟨false, 0, 100⟩, some ⟨20, 100⟩)
    ∧ checkRateLimit 200 (some ⟨20, 100⟩)
        = (⟨true, (RATE_LIMIT : Int) - 1, 200 + RATE_WINDOW_MS⟩,
           some ⟨1, 200 + RATE_WINDOW_MS⟩)
    ∧ 0 ≤ (checkRateLimit 7 none).1.remaining :=
  ⟨rate_limit_window.1 0 [1, 2] (by decide),
   rate_limit_window.2.1 50 ⟨20, 100⟩ (by decide) (by decide),
   rate_limit_window.2.2.2.1 200 ⟨20, 100⟩ (by decide),
   rate_limit_window.2.2.1 7 none⟩

/-- Witness for C2: at biW the priority item at position 0 is unmoved by
the shuffle, and position 2 (inside the general suffix) holds a general
item of the pre-shuffle pool. -/
theorem priority_order_invariant_witness :
    (builtPoolOf biW)[0]? = (mergedPoolOf biW)[0]?
    ∧ ∃ x ∈ (mergedPoolOf biW).drop (descCountOf biW), (builtPoolOf biW)[2]? = some x :=
  ⟨(priority_order_invariant biW).2.2.1 0 (by decide),
   (priority_order_invariant biW).2.2.2 2 (by decide) (by decide)⟩
